import Mathlib

/-!
Verification model of the RizzkTerminal backtest/indicator core.

The Python source is modelled shallowly:
  * a pandas numeric cell is `V := Option ℚ`, where `none` stands for a
    non-finite float (NaN, and the ±Inf produced by division by zero);
    finite float arithmetic is modelled exactly over `ℚ`;
  * a pandas Series is a `List V` (or a `List ℚ` once every cell is known
    to be finite, e.g. after `fillna`);
  * the float functions `x ** y` and `sqrt x`, whose exact values are
    irrational, are abstracted into a `NumOps` record carrying just the
    algebraic facts the statistics code relies on (`1 ** e = 1`,
    `sqrt 0 = 0`); every theorem holds for all such interpretations.

Sources modelled: apps/rizzk_pro/rizzk_pro.py (sma, rsi,
backtest_sma_cross, _stats), rizzk/core/backtest.py (vwap_cross),
rizzk/web/pages/backtest.py (_start_job / _run_job job lifecycle).
-/

set_option linter.unusedVariables false

namespace RizzkTerminal

/-- A pandas float cell: `none` models a non-finite value (NaN / ±Inf). -/
abbrev V : Type := Option ℚ

/-- NaN-propagating addition. -/
def vAdd : V → V → V
  | some a, some b => some (a + b)
  | _, _ => none

/-- NaN-propagating subtraction. -/
def vSub : V → V → V
  | some a, some b => some (a - b)
  | _, _ => none

/-- NaN-propagating multiplication. -/
def vMul : V → V → V
  | some a, some b => some (a * b)
  | _, _ => none

/-- NaN-propagating division.  Division by zero yields `none` (the code
paths proved below never feed a nonzero numerator over a zero denominator
into a position where NaN and ±Inf behave differently). -/
def vDiv : V → V → V
  | some a, some b => if b = 0 then none else some (a / b)
  | _, _ => none

/-- pandas elementwise `>`: any comparison with NaN is `False`. -/
def vGt : V → V → Bool
  | some a, some b => decide (b < a)
  | _, _ => false

/-- `Series.fillna(c)`: replace non-finite cells by the constant `c`. -/
def fillna (l : List V) (c : ℚ) : List ℚ := l.map (fun v => v.getD c)

/-- Element access with default 0, used to state per-bar properties. -/
def nth (l : List ℚ) (t : ℕ) : ℚ := l.getD t 0

/-- Element access on NaN-aware series, default NaN. -/
def nthV (l : List V) (t : ℕ) : V := l.getD t none

/-- `Series.diff()`: first entry NaN, then consecutive differences. -/
def diffV (l : List ℚ) : List V :=
  match l with
  | [] => []
  | _ :: xs => none :: List.zipWith (fun prev cur => some (cur - prev)) l xs

/-- `Series.pct_change()`: first entry NaN, then `cur / prev - 1`. -/
def pctChange (l : List ℚ) : List V :=
  match l with
  | [] => []
  | _ :: xs =>
      none :: List.zipWith (fun prev cur => vSub (vDiv (some cur) (some prev)) (some 1)) l xs

/-- Arithmetic mean of a finite series. -/
def listMean (l : List ℚ) : ℚ := l.sum / (l.length : ℚ)

/-- The non-NaN cells inside the rolling window that ends at position `t`:
indices `max 0 (t+1-win) .. t`. -/
def windowVals (win : ℕ) (l : List V) (t : ℕ) : List ℚ :=
  ((l.take (t + 1)).drop (t + 1 - win)).filterMap id

/-- `Series.rolling(win, min_periods=1).mean()`: at position `t`, the mean
of the non-NaN cells among indices `max 0 (t+1-win) .. t`; NaN when the
window holds no non-NaN cell. -/
def rollingMean (win : ℕ) (l : List V) : List V :=
  (List.range l.length).map (fun t =>
    if windowVals win l t = [] then none else some (listMean (windowVals win l t)))

/-- `sma` from rizzk_pro.py: rolling mean with `min_periods=1`. -/
def sma (series : List V) (win : ℕ) : List V := rollingMean win series

/-- Upward moves `delta.clip(lower=0)` of the rsi computation. -/
def rsiUp (s : List ℚ) : List V :=
  (diffV s).map (Option.map (fun d => max d 0))

/-- Downward moves `-delta.clip(upper=0)` of the rsi computation. -/
def rsiDown (s : List ℚ) : List V :=
  (diffV s).map (Option.map (fun d => -(min d 0)))

/-- `roll_up` of rsi: trailing average gain. -/
def rsiAvgGain (s : List ℚ) (win : ℕ) : List V := rollingMean win (rsiUp s)

/-- `roll_down` of rsi: trailing average loss. -/
def rsiAvgLoss (s : List ℚ) (win : ℕ) : List V := rollingMean win (rsiDown s)

/-- `Series.replace(0, np.nan)` on one cell. -/
def replaceZero : V → V
  | some x => if x = 0 then none else some x
  | none => none

/-- `rsi` from rizzk_pro.py:
`rs = roll_up / roll_down.replace(0, nan)`, `out = 100 - 100/(1+rs)`,
`out.fillna(50.0)`. -/
def rsi (s : List ℚ) (win : ℕ) : List ℚ :=
  let rd := (rsiAvgLoss s win).map replaceZero
  let rs := List.zipWith vDiv (rsiAvgGain s win) rd
  rs.map (fun r => (vSub (some 100) (vDiv (some 100) (vAdd (some 1) r))).getD 50)

/-- Running sum (`Series.cumsum()`). -/
def cumsum : List ℚ → List ℚ
  | [] => []
  | x :: xs => x :: (cumsum xs).map (fun y => x + y)

/-- Running product (`Series.cumprod()`). -/
def cumprod : List ℚ → List ℚ
  | [] => []
  | x :: xs => x :: (cumprod xs).map (fun y => x * y)

/-- Running maximum (`Series.cummax()`). -/
def cummax : List ℚ → List ℚ
  | [] => []
  | x :: xs => x :: (cummax xs).map (fun y => max x y)

/-- `Series.shift(1).fillna(0)`. -/
def shift1 (l : List ℚ) : List ℚ :=
  match l with
  | [] => []
  | _ => 0 :: l.dropLast

/-- `Series.diff().fillna(0)` on an all-finite series. -/
def diffFill (l : List ℚ) : List ℚ :=
  match l with
  | [] => []
  | _ :: xs => 0 :: List.zipWith (fun prev cur => cur - prev) l xs

/-- All series computed inside `backtest_sma_cross` before statistics. -/
structure BTCore where
  px : List ℚ
  signal : List ℚ
  shiftSig : List ℚ
  toggles : List ℚ
  ret : List ℚ
  cost : List ℚ
  stratRet : List ℚ
  eqBh : List ℚ
  eqSt : List ℚ
deriving DecidableEq, Repr

/-- `px = as_float_series(df.Close).fillna(0.0)` of `backtest_sma_cross`. -/
def btPx (closes : List V) : List ℚ := fillna closes 0

/-- `signal = (sma(px, short) > sma(px, long)).astype(int)`. -/
def btSig (closes : List V) (short long : ℕ) : List ℚ :=
  List.zipWith (fun a b => if vGt a b then (1 : ℚ) else 0)
    (sma ((btPx closes).map some) short) (sma ((btPx closes).map some) long)

/-- `shift_sig = signal.shift(1).fillna(0)`. -/
def btShift (closes : List V) (short long : ℕ) : List ℚ := shift1 (btSig closes short long)

/-- `toggles = (signal != shift_sig).astype(int)`. -/
def btTog (closes : List V) (short long : ℕ) : List ℚ :=
  List.zipWith (fun a b => if a = b then (0 : ℚ) else 1)
    (btSig closes short long) (btShift closes short long)

/-- `ret = px.pct_change().fillna(0.0)`. -/
def btRet (closes : List V) : List ℚ := fillna (pctChange (btPx closes)) 0

/-- `cost = toggles * (fee_bps / 10000.0)`. -/
def btCost (closes : List V) (short long : ℕ) (fee : ℚ) : List ℚ :=
  (btTog closes short long).map (fun g => g * (fee / 10000))

/-- `strat_ret = ret * signal - cost`. -/
def btStrat (closes : List V) (short long : ℕ) (fee : ℚ) : List ℚ :=
  List.zipWith (fun a b => a - b)
    (List.zipWith (fun a b => a * b) (btRet closes) (btSig closes short long))
    (btCost closes short long fee)

/-- The series pipeline of `backtest_sma_cross` (rizzk_pro.py):
`px = as_float_series(df.Close).fillna(0)`, short/long SMAs, binary
signal, one-bar-shifted signal, toggles, percentage returns, per-toggle
cost `fee/10000`, strategy returns and both cumulated equity curves. -/
def backtestCore (closes : List V) (short long : ℕ) (fee : ℚ) : BTCore :=
  { px := btPx closes
    signal := btSig closes short long
    shiftSig := btShift closes short long
    toggles := btTog closes short long
    ret := btRet closes
    cost := btCost closes short long fee
    stratRet := btStrat closes short long fee
    eqBh := cumprod ((btRet closes).map (fun r => 1 + r))
    eqSt := cumprod ((btStrat closes short long fee).map (fun r => 1 + r)) }

/-- Abstract interpretation of the two irrational float primitives used by
`_stats` (`x ** y` and `sqrt`), together with the only algebraic facts the
proofs rely on.  `pow` returns a cell because `float ** float` can be NaN
(negative base). -/
structure NumOps where
  pow : ℚ → ℚ → V
  sqrt : ℚ → ℚ
  pow_one : ∀ e : ℚ, pow 1 e = some 1
  sqrt_zero : sqrt 0 = 0

/-- A concrete `NumOps` interpretation, usable in closed evaluations. -/
def numOpsDemo : NumOps where
  pow := fun b _ => some b
  sqrt := fun x => x
  pow_one := fun _ => rfl
  sqrt_zero := rfl

/-- Sample variance with `ddof = 1` (the pandas `std` default squared). -/
def sampleVar (l : List ℚ) : ℚ :=
  ((l.map (fun x => (x - listMean l) ^ 2)).sum) / ((l.length : ℚ) - 1)

/-- `Series.std()`: NaN when fewer than two observations. -/
def sampleStd (ops : NumOps) (l : List ℚ) : V :=
  if l.length ≤ 1 then none else some (ops.sqrt (sampleVar l))

/-- `Series.min()` with pandas skip-NaN semantics; NaN if no finite cell. -/
def minSkipna (l : List V) : V :=
  match l.filterMap id with
  | [] => none
  | x :: xs => some (xs.foldl min x)

/-- The four summary numbers produced by `_stats`. -/
structure Stats where
  cagr : ℚ
  vol : ℚ
  maxdd : ℚ
  sharpe : ℚ
deriving DecidableEq, Repr

/-- `rets = eq.pct_change().fillna(0.0)` inside `_stats`. -/
def statsRets (eq : List ℚ) : List ℚ := fillna (pctChange eq) 0

/-- `cagr = eq.iloc[-1] ** (252.0 / max(len(eq), 1)) - 1.0`. -/
def statsCagr (ops : NumOps) (eq : List ℚ) (lastVal : ℚ) : V :=
  (ops.pow lastVal (252 / ((max eq.length 1 : ℕ) : ℚ))).map (fun x => x - 1)

/-- `vol = rets.std() * np.sqrt(252.0)`. -/
def statsVol (ops : NumOps) (eq : List ℚ) : V :=
  (sampleStd ops (statsRets eq)).map (fun s => s * ops.sqrt 252)

/-- `dd = (eq / eq.cummax() - 1.0).min()`. -/
def statsDd (eq : List ℚ) : V :=
  minSkipna (List.zipWith (fun e m => vSub (vDiv (some e) (some m)) (some 1)) eq (cummax eq))

/-- `sharpe = (rets.mean() * 252.0) / (vol if vol != 0 else np.nan)`.
Note that `nan != 0` is `True` for floats, so a NaN volatility passes
through the guard and poisons the quotient. -/
def statsSharpe (ops : NumOps) (eq : List ℚ) : V :=
  vDiv (some (listMean (statsRets eq) * 252))
    (match statsVol ops eq with
     | some v => if v = 0 then none else some v
     | none => none)

/-- `_stats` from `backtest_sma_cross`.  `eq.iloc[-1]` raises `IndexError`
on an empty series, modelled as `none`.  Each statistic passes through the
`float(x) if np.isfinite(x) else 0.0` guard, modelled by `Option.getD 0`. -/
def statsOf (ops : NumOps) (eq : List ℚ) : Option Stats :=
  match eq.getLast? with
  | none => none
  | some lastVal =>
      some { cagr := (statsCagr ops eq lastVal).getD 0
             vol := (statsVol ops eq).getD 0
             maxdd := (statsDd eq).getD 0
             sharpe := (statsSharpe ops eq).getD 0 }

/-- Full result of `backtest_sma_cross`: the series plus both statistics
blocks; `none` models the `IndexError` `_stats` raises on empty input. -/
structure BTResult where
  core : BTCore
  statsBh : Stats
  statsSt : Stats
deriving DecidableEq, Repr

/-- `backtest_sma_cross(df, short, long, fee_bps)`. -/
def backtest_sma_cross (ops : NumOps) (closes : List V) (short long : ℕ)
    (fee : ℚ) : Option BTResult :=
  let c := backtestCore closes short long fee
  match statsOf ops c.eqBh, statsOf ops c.eqSt with
  | some sb, some ss => some { core := c, statsBh := sb, statsSt := ss }
  | _, _ => none

/-- Input frame of `vwap_cross`: a close column and an optional volume
column (`prices.get("volume")` may be absent). -/
structure Frame where
  close : List ℚ
  volume : Option (List ℚ)
deriving DecidableEq, Repr

/-- Missing volume is treated as uniform weight 1 per bar. -/
def frameVolume (f : Frame) : List ℚ :=
  f.volume.getD (List.replicate f.close.length 1)

/-- The VWAP series: `(close * volume).cumsum() / (volume.cumsum() + 1e-9)`. -/
def vwapSeries (f : Frame) : List V :=
  List.zipWith (fun pv cv => vDiv (some pv) (some cv))
    (cumsum (List.zipWith (fun c v => c * v) f.close (frameVolume f)))
    ((cumsum (frameVolume f)).map (fun x => x + 1 / 1000000000))

/-- Raw VWAP signal: `(close > vwap).astype(int)`. -/
def vwapSignal (f : Frame) : List ℚ :=
  List.zipWith (fun c v => if vGt (some c) v then (1 : ℚ) else 0) f.close (vwapSeries f)

/-- `returns = close.pct_change().fillna(0)`. -/
def vwapReturns (f : Frame) : List ℚ := fillna (pctChange f.close) 0

/-- `strategy_returns = returns * signal.shift().fillna(0)`: each bar's
return weighted by the previous bar's signal, with no fee term. -/
def vwapStrat (f : Frame) : List ℚ :=
  List.zipWith (fun r s => r * s) (vwapReturns f) (shift1 (vwapSignal f))

/-- Output frame of `vwap_cross` (its `signal` column holds the diffed
crossing series, not the raw signal). -/
structure VwapOut where
  vwap : List V
  signal : List ℚ
  equity : List ℚ
deriving DecidableEq, Repr

/-- `vwap_cross` from rizzk/core/backtest.py. -/
def vwap_cross (f : Frame) : VwapOut :=
  if f.close = [] then { vwap := [], signal := [], equity := [] }
  else
    { vwap := vwapSeries f
      signal := diffFill (vwapSignal f)
      equity := cumprod ((vwapStrat f).map (fun r => 1 + r)) }

/-- Cache value a backtest job id can hold
(rizzk/web/pages/backtest.py). -/
inductive JobStatus where
  | running : JobStatus
  | done : List ℚ → JobStatus
  | error : String → JobStatus
deriving DecidableEq, Repr

/-- A status is terminal when it is `done` or `error`. -/
def JobStatus.isTerminal : JobStatus → Bool
  | .running => false
  | _ => true

/-- The single write `_run_job` performs for its job id: `done` with the
equity payload when the price load and backtest succeed, `error` with the
message text when anything raises. -/
def runJobWrite (load : Except String Frame) : JobStatus :=
  match load with
  | .ok f => .done (vwap_cross f).equity
  | .error e => .error e

/-- Program-order sequence of cache writes to one job id: `_start_job`
writes `running` before spawning the thread, then `_run_job` writes its
single terminal value. -/
def jobWrites (load : Except String Frame) : List JobStatus :=
  [JobStatus.running, runJobWrite load]

/-- A poll that happens after the first `k` writes observes the last of
those writes (last-write-wins on a single key). -/
def pollAfter (writes : List JobStatus) (k : ℕ) : Option JobStatus :=
  (writes.take k).getLast?

/-! ### Access and length lemmas for the series primitives -/

theorem nth_eq_getElem (l : List ℚ) (t : ℕ) (h : t < l.length) : nth l t = l[t] := by
  simp [nth, List.getD_eq_getElem?_getD, List.getElem?_eq_getElem h]

theorem nthV_eq_getElem (l : List V) (t : ℕ) (h : t < l.length) : nthV l t = l[t] := by
  simp [nthV, List.getD_eq_getElem?_getD, List.getElem?_eq_getElem h]

@[simp] theorem length_fillna (l : List V) (c : ℚ) : (fillna l c).length = l.length := by
  simp [fillna]

@[simp] theorem length_pctChange (l : List ℚ) : (pctChange l).length = l.length := by
  cases l with
  | nil => rfl
  | cons x xs => simp [pctChange]

@[simp] theorem length_diffV (l : List ℚ) : (diffV l).length = l.length := by
  cases l with
  | nil => rfl
  | cons x xs => simp [diffV]

@[simp] theorem length_rollingMean (win : ℕ) (l : List V) :
    (rollingMean win l).length = l.length := by
  simp [rollingMean]

@[simp] theorem length_sma (s : List V) (win : ℕ) : (sma s win).length = s.length := by
  simp [sma]

theorem shift1_cons (x : ℚ) (xs : List ℚ) : shift1 (x :: xs) = 0 :: (x :: xs).dropLast := rfl

@[simp] theorem length_shift1 (l : List ℚ) : (shift1 l).length = l.length := by
  cases l with
  | nil => rfl
  | cons x xs => simp [shift1_cons]

@[simp] theorem length_diffFill (l : List ℚ) : (diffFill l).length = l.length := by
  cases l with
  | nil => rfl
  | cons x xs => simp [diffFill]

@[simp] theorem length_cumsum (l : List ℚ) : (cumsum l).length = l.length := by
  induction l with
  | nil => rfl
  | cons x xs ih => simp [cumsum, ih]

@[simp] theorem length_cumprod (l : List ℚ) : (cumprod l).length = l.length := by
  induction l with
  | nil => rfl
  | cons x xs ih => simp [cumprod, ih]

@[simp] theorem length_cummax (l : List ℚ) : (cummax l).length = l.length := by
  induction l with
  | nil => rfl
  | cons x xs ih => simp [cummax, ih]

@[simp] theorem length_btPx (closes : List V) : (btPx closes).length = closes.length := by
  simp [btPx]

@[simp] theorem length_btSig (closes : List V) (short long : ℕ) :
    (btSig closes short long).length = closes.length := by
  simp [btSig]

@[simp] theorem length_btShift (closes : List V) (short long : ℕ) :
    (btShift closes short long).length = closes.length := by
  simp [btShift]

@[simp] theorem length_btTog (closes : List V) (short long : ℕ) :
    (btTog closes short long).length = closes.length := by
  simp [btTog]

@[simp] theorem length_btRet (closes : List V) : (btRet closes).length = closes.length := by
  simp [btRet]

@[simp] theorem length_btCost (closes : List V) (short long : ℕ) (fee : ℚ) :
    (btCost closes short long fee).length = closes.length := by
  simp [btCost]

@[simp] theorem length_btStrat (closes : List V) (short long : ℕ) (fee : ℚ) :
    (btStrat closes short long fee).length = closes.length := by
  simp [btStrat]

@[simp] theorem length_rsi (s : List ℚ) (win : ℕ) : (rsi s win).length = s.length := by
  simp [rsi, rsiAvgGain, rsiAvgLoss, rsiUp, rsiDown]

/-- Pointwise description of the rolling mean. -/
theorem getElem_rollingMean (win : ℕ) (l : List V) (t : ℕ)
    (h : t < (rollingMean win l).length) :
    (rollingMean win l)[t]
      = if windowVals win l t = [] then none else some (listMean (windowVals win l t)) := by
  simp [rollingMean]

/-- On an all-finite series the rolling window is just a take/drop slice. -/
theorem windowVals_map_some (win : ℕ) (l : List ℚ) (t : ℕ) :
    windowVals win (l.map some) t = (l.take (t + 1)).drop (t + 1 - win) := by
  simp [windowVals, ← List.map_take, ← List.map_drop, List.filterMap_map]

/-- With `win ≥ 1` the window at a valid position is nonempty. -/
theorem windowVals_map_some_ne_nil (win : ℕ) (l : List ℚ) (t : ℕ)
    (hw : 1 ≤ win) (ht : t < l.length) : windowVals win (l.map some) t ≠ [] := by
  rw [windowVals_map_some]
  intro hcon
  have hlen := congrArg List.length hcon
  simp [List.length_drop, List.length_take] at hlen
  omega

/-- Prefix-product description of `cumprod`. -/
theorem getElem_cumprod (l : List ℚ) (t : ℕ) (h : t < (cumprod l).length) :
    (cumprod l)[t] = ((l.take (t + 1)).prod) := by
  induction l generalizing t with
  | nil => simp at h
  | cons x xs ih =>
      cases t with
      | zero => simp [cumprod]
      | succ s =>
          have hs : s < (cumprod xs).length := by
            simp at h ⊢
            omega
          simp only [cumprod, List.getElem_cons_succ, List.getElem_map, ih s hs,
            List.take_succ_cons, List.prod_cons]

/-- The last entry of `cumprod` is the full product. -/
theorem getLastD_cumprod (l : List ℚ) : (cumprod l).getLastD 1 = l.prod := by
  cases hl : l with
  | nil => simp [cumprod]
  | cons x xs =>
      have hne : cumprod (x :: xs) ≠ [] := by
        intro hcon
        have := congrArg List.length hcon
        simp at this
      have hlen : (cumprod (x :: xs)).length - 1 < (cumprod (x :: xs)).length := by
        cases hcp : cumprod (x :: xs) with
        | nil => exact absurd hcp hne
        | cons y ys => simp
      rw [List.getLastD_eq_getLast?, List.getLast?_eq_getElem?,
        List.getElem?_eq_getElem hlen, Option.getD_some,
        getElem_cumprod _ _ hlen]
      have : (cumprod (x :: xs)).length - 1 + 1 = (x :: xs).length := by
        simp
      rw [this, List.take_length]

/-! ### Per-bar description of the backtest pipeline -/

@[simp] theorem backtestCore_px (closes : List V) (short long : ℕ) (fee : ℚ) :
    (backtestCore closes short long fee).px = btPx closes := rfl

@[simp] theorem backtestCore_signal (closes : List V) (short long : ℕ) (fee : ℚ) :
    (backtestCore closes short long fee).signal = btSig closes short long := rfl

@[simp] theorem backtestCore_shiftSig (closes : List V) (short long : ℕ) (fee : ℚ) :
    (backtestCore closes short long fee).shiftSig = btShift closes short long := rfl

@[simp] theorem backtestCore_toggles (closes : List V) (short long : ℕ) (fee : ℚ) :
    (backtestCore closes short long fee).toggles = btTog closes short long := rfl

@[simp] theorem backtestCore_ret (closes : List V) (short long : ℕ) (fee : ℚ) :
    (backtestCore closes short long fee).ret = btRet closes := rfl

@[simp] theorem backtestCore_cost (closes : List V) (short long : ℕ) (fee : ℚ) :
    (backtestCore closes short long fee).cost = btCost closes short long fee := rfl

@[simp] theorem backtestCore_stratRet (closes : List V) (short long : ℕ) (fee : ℚ) :
    (backtestCore closes short long fee).stratRet = btStrat closes short long fee := rfl

@[simp] theorem backtestCore_eqBh (closes : List V) (short long : ℕ) (fee : ℚ) :
    (backtestCore closes short long fee).eqBh
      = cumprod ((btRet closes).map (fun r => 1 + r)) := rfl

@[simp] theorem backtestCore_eqSt (closes : List V) (short long : ℕ) (fee : ℚ) :
    (backtestCore closes short long fee).eqSt
      = cumprod ((btStrat closes short long fee).map (fun r => 1 + r)) := rfl

/-- `sma` on an all-finite series is the plain mean of the trailing slice. -/
theorem getElem_sma_map_some (l : List ℚ) (win t : ℕ) (hw : 1 ≤ win)
    (ht : t < l.length) (hb : t < (sma (l.map some) win).length) :
    (sma (l.map some) win)[t] = some (listMean ((l.take (t + 1)).drop (t + 1 - win))) := by
  have h1 : t < (rollingMean win (l.map some)).length := by simpa [sma] using hb
  have := getElem_rollingMean win (l.map some) t h1
  rw [windowVals_map_some] at this
  rw [show (sma (l.map some) win)[t] = (rollingMean win (l.map some))[t] from rfl, this,
    if_neg]
  have := windowVals_map_some_ne_nil win l t hw ht
  rw [windowVals_map_some] at this
  exact this

theorem nth_btSig (closes : List V) (short long t : ℕ) (ht : t < closes.length) :
    nth (btSig closes short long) t
      = if vGt (nthV (sma ((btPx closes).map some) short) t)
              (nthV (sma ((btPx closes).map some) long) t)
        then 1 else 0 := by
  have h1 : t < (btSig closes short long).length := by simpa using ht
  have h2 : t < (sma ((btPx closes).map some) short).length := by simpa using ht
  have h3 : t < (sma ((btPx closes).map some) long).length := by simpa using ht
  rw [nth_eq_getElem _ _ h1, nthV_eq_getElem _ _ h2, nthV_eq_getElem _ _ h3]
  simp [btSig, List.getElem_zipWith]

/-- Per-bar description of `shift(1).fillna(0)`. -/
theorem nth_shift1 (l : List ℚ) (t : ℕ) (ht : t < l.length) :
    nth (shift1 l) t = if t = 0 then 0 else nth l (t - 1) := by
  cases l with
  | nil => simp at ht
  | cons x xs =>
      cases t with
      | zero => simp [shift1_cons, nth]
      | succ s =>
          have hs : s < xs.length := by simpa using ht
          have hdl : s < ((x :: xs).dropLast).length := by simp; omega
          have hb : s + 1 < (0 :: (x :: xs).dropLast).length := by simp; omega
          have hsx : s < (x :: xs).length := by simp; omega
          rw [shift1_cons, nth_eq_getElem _ _ hb, List.getElem_cons_succ,
            List.getElem_dropLast]
          simp [nth_eq_getElem _ _ hsx]

theorem nth_btShift (closes : List V) (short long t : ℕ) (ht : t < closes.length) :
    nth (btShift closes short long) t
      = if t = 0 then 0 else nth (btSig closes short long) (t - 1) := by
  have hlen : t < (btSig closes short long).length := by simpa using ht
  exact nth_shift1 _ _ hlen

theorem nth_btTog (closes : List V) (short long t : ℕ) (ht : t < closes.length) :
    nth (btTog closes short long) t
      = if nth (btSig closes short long) t = nth (btShift closes short long) t
        then 0 else 1 := by
  have h1 : t < (btTog closes short long).length := by simpa using ht
  have h2 : t < (btSig closes short long).length := by simpa using ht
  have h3 : t < (btShift closes short long).length := by simpa using ht
  rw [nth_eq_getElem _ _ h1, nth_eq_getElem _ _ h2, nth_eq_getElem _ _ h3]
  simp [btTog, List.getElem_zipWith]

theorem nth_btCost (closes : List V) (short long t : ℕ) (fee : ℚ) (ht : t < closes.length) :
    nth (btCost closes short long fee) t
      = nth (btTog closes short long) t * (fee / 10000) := by
  have h1 : t < (btCost closes short long fee).length := by simpa using ht
  have h2 : t < (btTog closes short long).length := by simpa using ht
  rw [nth_eq_getElem _ _ h1, nth_eq_getElem _ _ h2]
  simp [btCost, List.getElem_map]

theorem nth_btStrat (closes : List V) (short long t : ℕ) (fee : ℚ) (ht : t < closes.length) :
    nth (btStrat closes short long fee) t
      = nth (btRet closes) t * nth (btSig closes short long) t
        - nth (btCost closes short long fee) t := by
  have h1 : t < (btStrat closes short long fee).length := by simpa using ht
  have h2 : t < (btRet closes).length := by simpa using ht
  have h3 : t < (btSig closes short long).length := by simpa using ht
  have h4 : t < (btCost closes short long fee).length := by simpa using ht
  have h5 : t < (List.zipWith (fun a b => a * b) (btRet closes) (btSig closes short long)).length := by
    simp
    omega
  rw [nth_eq_getElem _ _ h1, nth_eq_getElem _ _ h2, nth_eq_getElem _ _ h3,
    nth_eq_getElem _ _ h4]
  simp [btStrat, List.getElem_zipWith]

/-- Claim C1: the primary engine applies the same-bar signal to the
same-bar percentage return, a toggle is a difference from the previous
bar's signal (bar 0 compared against 0), each toggle deducts
`fee/10000` from that bar's strategy return, and the strategy equity at
bar `t` compounds the per-bar strategy returns up to `t`. -/
theorem claim1_same_bar_signal_and_toggle_cost
    (closes : List V) (short long : ℕ) (fee : ℚ) (t : ℕ)
    (ht : t < closes.length) :
    nth (backtestCore closes short long fee).stratRet t
      = nth (backtestCore closes short long fee).ret t
          * nth (backtestCore closes short long fee).signal t
        - (if nth (backtestCore closes short long fee).signal t
              = (if t = 0 then 0 else nth (backtestCore closes short long fee).signal (t - 1))
           then 0 else fee / 10000)
    ∧ nth (backtestCore closes short long fee).eqSt t
      = ((((backtestCore closes short long fee).stratRet.take (t + 1)).map
            (fun r => 1 + r)).prod) := by
  simp only [backtestCore_stratRet, backtestCore_ret, backtestCore_signal, backtestCore_eqSt]
  constructor
  · rw [nth_btStrat closes short long t fee ht, nth_btCost closes short long t fee ht,
      nth_btTog closes short long t ht, nth_btShift closes short long t ht]
    by_cases hc : nth (btSig closes short long) t
        = (if t = 0 then (0 : ℚ) else nth (btSig closes short long) (t - 1))
    · rw [if_pos hc, if_pos hc]
      ring
    · rw [if_neg hc, if_neg hc]
      ring
  · have h1 : t < (cumprod ((btStrat closes short long fee).map (fun r => 1 + r))).length := by
      simp
      omega
    rw [nth_eq_getElem _ _ h1, getElem_cumprod _ _ h1, ← List.map_take]

/-- Claim C10: with window parameters `1 ≤ short ≤ long`, the signal is 0
at every bar `t < short` (both rolling means average the same `t+1`
points there), so no toggle fires and no transaction cost is charged
before bar `short`. -/
theorem claim10_no_signal_before_short_window
    (closes : List V) (short long : ℕ) (fee : ℚ) (t : ℕ)
    (hw : 1 ≤ short) (hsl : short ≤ long) (hts : t < short) (ht : t < closes.length) :
    nth (backtestCore closes short long fee).signal t = 0
    ∧ nth (backtestCore closes short long fee).toggles t = 0
    ∧ nth (backtestCore closes short long fee).cost t = 0 := by
  have hsig : ∀ s, s < short → s < closes.length → nth (btSig closes short long) s = 0 := by
    intro s hss hsc
    rw [nth_btSig closes short long s hsc]
    have hpx : s < (btPx closes).length := by simpa using hsc
    have hb1 : s < (sma ((btPx closes).map some) short).length := by simpa using hsc
    have hb2 : s < (sma ((btPx closes).map some) long).length := by simpa using hsc
    have e1 := getElem_sma_map_some (btPx closes) short s hw hpx hb1
    have e2 := getElem_sma_map_some (btPx closes) long s (le_trans hw hsl) hpx hb2
    have hz1 : s + 1 - short = 0 := by omega
    have hz2 : s + 1 - long = 0 := by omega
    rw [hz1] at e1
    rw [hz2] at e2
    rw [nthV_eq_getElem _ _ hb1, nthV_eq_getElem _ _ hb2, e1, e2]
    simp [vGt]
  refine ⟨hsig t hts ht, ?_, ?_⟩
  · show nth (btTog closes short long) t = 0
    rw [nth_btTog closes short long t ht, nth_btShift closes short long t ht]
    cases t with
    | zero => simp [hsig 0 hts ht]
    | succ s =>
        have h1 := hsig (s + 1) hts ht
        have h2 := hsig s (by omega) (by omega)
        simp [h1, h2]
  · show nth (btCost closes short long fee) t = 0
    rw [nth_btCost closes short long t fee ht, nth_btTog closes short long t ht,
      nth_btShift closes short long t ht]
    cases t with
    | zero => simp [hsig 0 hts ht]
    | succ s =>
        have h1 := hsig (s + 1) hts ht
        have h2 := hsig s (by omega) (by omega)
        simp [h1, h2]

/-! ### The asynchronous vwap engine -/

@[simp] theorem length_vwapReturns (f : Frame) : (vwapReturns f).length = f.close.length := by
  simp [vwapReturns]

theorem length_vwapSeries (f : Frame) (hv : (frameVolume f).length = f.close.length) :
    (vwapSeries f).length = f.close.length := by
  simp [vwapSeries, hv]

theorem length_vwapSignal (f : Frame) (hv : (frameVolume f).length = f.close.length) :
    (vwapSignal f).length = f.close.length := by
  simp [vwapSignal, length_vwapSeries f hv]

theorem length_vwapStrat (f : Frame) (hv : (frameVolume f).length = f.close.length) :
    (vwapStrat f).length = f.close.length := by
  simp [vwapStrat, length_vwapSignal f hv]

/-- Per-bar strategy return of the vwap engine: current return times the
previous bar's signal, no transaction-cost term. -/
theorem nth_vwapStrat (f : Frame) (t : ℕ)
    (hv : (frameVolume f).length = f.close.length) (ht : t < f.close.length) :
    nth (vwapStrat f) t
      = nth (vwapReturns f) t * (if t = 0 then 0 else nth (vwapSignal f) (t - 1)) := by
  have h1 : t < (vwapStrat f).length := by rw [length_vwapStrat f hv]; exact ht
  have h2 : t < (vwapReturns f).length := by simpa using ht
  have hsig : t < (vwapSignal f).length := by rw [length_vwapSignal f hv]; exact ht
  have h3 : t < (shift1 (vwapSignal f)).length := by
    rw [length_shift1]
    exact hsig
  have e : nth (vwapStrat f) t = nth (vwapReturns f) t * nth (shift1 (vwapSignal f)) t := by
    rw [nth_eq_getElem _ _ h1, nth_eq_getElem _ _ h2, nth_eq_getElem _ _ h3]
    simp [vwapStrat, List.getElem_zipWith]
  rw [e, nth_shift1 _ _ hsig]

/-- The first per-bar strategy return of the vwap engine is 0. -/
theorem nth_vwapStrat_zero (f : Frame)
    (hv : (frameVolume f).length = f.close.length) (hne : f.close ≠ []) :
    nth (vwapStrat f) 0 = 0 := by
  have h0 : 0 < f.close.length := List.length_pos.mpr hne
  rw [nth_vwapStrat f 0 hv h0]
  simp

/-- Claim C9 helper: the non-empty branch of `vwap_cross`. -/
theorem vwap_cross_equity_of_ne_nil (f : Frame) (hne : f.close ≠ []) :
    (vwap_cross f).equity = cumprod ((vwapStrat f).map (fun r => 1 + r)) := by
  simp [vwap_cross, hne]

/-- Claim C8: indicator-library totality and length preservation: `sma`
preserves length for every window `≥ 1` and is the trailing-slice mean
(also when the window exceeds the available history), and empty inputs
come back empty from `sma`, `rsi` and `vwap_cross`. -/
theorem claim8_indicator_totality_and_length :
    (∀ (s : List V) (win : ℕ), 1 ≤ win → (sma s win).length = s.length)
    ∧ (∀ (l : List ℚ) (win t : ℕ), 1 ≤ win → t < l.length →
        nthV (sma (l.map some) win) t
          = some (listMean ((l.take (t + 1)).drop (t + 1 - win))))
    ∧ (∀ win, sma [] win = [])
    ∧ (∀ win, rsi [] win = [])
    ∧ (∀ vol, vwap_cross { close := [], volume := vol }
        = { vwap := [], signal := [], equity := [] }) := by
  refine ⟨fun s win _ => length_sma s win, ?_, fun win => rfl, fun win => rfl, fun vol => rfl⟩
  intro l win t hw ht
  have hb : t < (sma (l.map some) win).length := by simpa using ht
  rw [nthV_eq_getElem _ _ hb]
  exact getElem_sma_map_some l win t hw ht hb

/-- Claim C9: the asynchronous engine `vwap_cross` weights each bar's
percentage return by the previous bar's signal (first weight 0) and
charges no transaction cost, hence every non-empty aligned frame has
first equity value exactly 1; on a shared close series it produces a
different equity curve than the same-bar engine `backtest_sma_cross`. -/
theorem claim9_vwap_shifted_signal_no_fee :
    (∀ f : Frame, f.close ≠ [] → (frameVolume f).length = f.close.length →
        (vwap_cross f).equity.head? = some 1)
    ∧ (∀ (f : Frame) (t : ℕ), (frameVolume f).length = f.close.length →
        t < f.close.length →
        nth (vwapStrat f) t
          = nth (vwapReturns f) t * (if t = 0 then 0 else nth (vwapSignal f) (t - 1)))
    ∧ (∀ (f : Frame) (t : ℕ), (frameVolume f).length = f.close.length →
        t < f.close.length →
        nth ((vwap_cross f).equity) t
          = (((vwapStrat f).take (t + 1)).map (fun r => 1 + r)).prod)
    ∧ (vwap_cross { close := [1, 2, 4], volume := none }).equity
        ≠ (backtestCore [some 1, some 2, some 4] 10 20 1).eqSt := by
  refine ⟨?_, fun f t hv ht => nth_vwapStrat f t hv ht, ?_, ?_⟩
  · intro f hne hv
    cases hst : vwapStrat f with
    | nil =>
        exfalso
        have h0 : 0 < f.close.length := List.length_pos.mpr hne
        have := length_vwapStrat f hv
        rw [hst] at this
        simp at this
        omega
    | cons y ys =>
        have hy : y = 0 := by
          have h := nth_vwapStrat_zero f hv hne
          rw [hst] at h
          simpa [nth] using h
        rw [vwap_cross_equity_of_ne_nil f hne, hst, hy]
        simp [cumprod]
  · intro f t hv ht
    have hne : f.close ≠ [] := by
      intro hcon
      rw [hcon] at ht
      simp at ht
    rw [vwap_cross_equity_of_ne_nil f hne]
    have h1 : t < (cumprod ((vwapStrat f).map (fun r => 1 + r))).length := by
      rw [length_cumprod, List.length_map, length_vwapStrat f hv]
      exact ht
    rw [nth_eq_getElem _ _ h1, getElem_cumprod _ _ h1, ← List.map_take]
  · intro hcon
    have h2 : nth (vwap_cross { close := [1, 2, 4], volume := none }).equity 2
        = nth (backtestCore [some 1, some 2, some 4] 10 20 1).eqSt 2 := by rw [hcon]
    norm_num [vwap_cross, vwapSeries, vwapSignal, vwapStrat, vwapReturns, frameVolume,
      pctChange, fillna, cumsum, cumprod, shift1, diffFill, vDiv, vGt, vSub, vAdd, vMul,
      backtestCore, btStrat, btRet, btPx, btSig, btCost, btTog, btShift, sma, rollingMean,
      windowVals, listMean, nth, List.range_succ, List.filterMap_cons,
      List.cons_ne_nil] at h2

/-! ### RSI bounds -/

@[simp] theorem length_rsiUp (s : List ℚ) : (rsiUp s).length = s.length := by
  simp [rsiUp]

@[simp] theorem length_rsiDown (s : List ℚ) : (rsiDown s).length = s.length := by
  simp [rsiDown]

@[simp] theorem length_rsiAvgGain (s : List ℚ) (win : ℕ) :
    (rsiAvgGain s win).length = s.length := by
  simp [rsiAvgGain]

@[simp] theorem length_rsiAvgLoss (s : List ℚ) (win : ℕ) :
    (rsiAvgLoss s win).length = s.length := by
  simp [rsiAvgLoss]

/-- Finite cells of a rolling mean over a series whose finite cells are
nonnegative are nonnegative. -/
theorem rollingMean_nonneg (win : ℕ) (l : List V)
    (hl : ∀ v ∈ l, ∀ x : ℚ, v = some x → 0 ≤ x) (t : ℕ)
    (h : t < (rollingMean win l).length) (a : ℚ)
    (ha : (rollingMean win l)[t] = some a) : 0 ≤ a := by
  rw [getElem_rollingMean win l t h] at ha
  by_cases hw : windowVals win l t = []
  · rw [if_pos hw] at ha
    exact absurd ha (by simp)
  · rw [if_neg hw] at ha
    have hav : a = listMean (windowVals win l t) := (Option.some.inj ha).symm
    subst hav
    unfold listMean
    apply div_nonneg
    · apply List.sum_nonneg
      intro x hx
      unfold windowVals at hx
      rcases List.mem_filterMap.mp hx with ⟨v, hv, hvx⟩
      have hvl : v ∈ l := List.mem_of_mem_take (List.mem_of_mem_drop hv)
      exact hl v hvl x hvx
    · exact_mod_cast Nat.zero_le _

/-- Every finite cell of `rsiUp` is nonnegative. -/
theorem rsiUp_nonneg (s : List ℚ) : ∀ v ∈ rsiUp s, ∀ x : ℚ, v = some x → 0 ≤ x := by
  intro v hv x hvx
  rcases List.mem_map.mp hv with ⟨w, hw, hwv⟩
  cases w with
  | none => rw [← hwv] at hvx; simp at hvx
  | some d =>
      rw [← hwv] at hvx
      simp at hvx
      rw [← hvx]
      exact le_max_right d 0

/-- Every finite cell of `rsiDown` is nonnegative. -/
theorem rsiDown_nonneg (s : List ℚ) : ∀ v ∈ rsiDown s, ∀ x : ℚ, v = some x → 0 ≤ x := by
  intro v hv x hvx
  rcases List.mem_map.mp hv with ⟨w, hw, hwv⟩
  cases w with
  | none => rw [← hwv] at hvx; simp at hvx
  | some d =>
      rw [← hwv] at hvx
      simp at hvx
      rw [← hvx]
      simp

/-- Per-bar description of `rsi`. -/
theorem nth_rsi_eq (s : List ℚ) (win t : ℕ) (ht : t < s.length) :
    nth (rsi s win) t
      = (vSub (some 100) (vDiv (some 100) (vAdd (some 1)
          (vDiv (nthV (rsiAvgGain s win) t)
                (replaceZero (nthV (rsiAvgLoss s win) t)))))).getD 50 := by
  have h1 : t < (rsi s win).length := by simpa using ht
  have h2 : t < (rsiAvgGain s win).length := by simpa using ht
  have h3 : t < (rsiAvgLoss s win).length := by simpa using ht
  have h4 : t < ((rsiAvgLoss s win).map replaceZero).length := by simpa using ht
  have h5 : t < (List.zipWith vDiv (rsiAvgGain s win)
      ((rsiAvgLoss s win).map replaceZero)).length := by
    simp
    omega
  rw [nth_eq_getElem _ _ h1, nthV_eq_getElem _ _ h2, nthV_eq_getElem _ _ h3]
  simp only [rsi, List.getElem_map, List.getElem_zipWith]

/-- Claim C5: the rsi output always lies in `[0, 100]`, when both trailing
averages are exactly 0 the value is exactly 50, and on the constant
series `[10,10,10,10,10]` with window 3 every bar reads 50. -/
theorem claim5_rsi_bounded_and_neutral_default :
    (∀ (s : List ℚ) (win t : ℕ), t < s.length →
        0 ≤ nth (rsi s win) t ∧ nth (rsi s win) t ≤ 100)
    ∧ (∀ (s : List ℚ) (win t : ℕ), t < s.length →
        nthV (rsiAvgGain s win) t = some 0 → nthV (rsiAvgLoss s win) t = some 0 →
        nth (rsi s win) t = 50)
    ∧ rsi [10, 10, 10, 10, 10] 3 = [50, 50, 50, 50, 50] := by
  refine ⟨?_, ?_, ?_⟩
  · intro s win t ht
    rw [nth_rsi_eq s win t ht]
    cases hd : replaceZero (nthV (rsiAvgLoss s win) t) with
    | none =>
        cases hg : nthV (rsiAvgGain s win) t with
        | none => norm_num [vDiv, vAdd, vSub]
        | some a => norm_num [vDiv, vAdd, vSub]
    | some b =>
        have hbd : nthV (rsiAvgLoss s win) t = some b ∧ b ≠ 0 := by
          cases hdl : nthV (rsiAvgLoss s win) t with
          | none => rw [hdl] at hd; simp [replaceZero] at hd
          | some x =>
              rw [hdl] at hd
              by_cases hx : x = 0
              · rw [hx] at hd; simp [replaceZero] at hd
              · refine ⟨?_, ?_⟩
                · simp [replaceZero, hx] at hd
                  rw [hd]
                · simp [replaceZero, hx] at hd
                  rw [← hd]; exact hx
        have hb0 : 0 ≤ b := by
          have h3 : t < (rsiAvgLoss s win).length := by simpa using ht
          have := rollingMean_nonneg win (rsiDown s) (rsiDown_nonneg s) t
            (by simpa [rsiAvgLoss] using h3) b
            (by rw [← nthV_eq_getElem _ _ (by simpa [rsiAvgLoss] using h3)]
                exact hbd.1)
          exact this
        have hbpos : 0 < b := lt_of_le_of_ne hb0 (Ne.symm hbd.2)
        cases hg : nthV (rsiAvgGain s win) t with
        | none => norm_num [vDiv, vAdd, vSub]
        | some a =>
            have ha0 : 0 ≤ a := by
              have h2 : t < (rsiAvgGain s win).length := by simpa using ht
              exact rollingMean_nonneg win (rsiUp s) (rsiUp_nonneg s) t
                (by simpa [rsiAvgGain] using h2) a
                (by rw [← nthV_eq_getElem _ _ (by simpa [rsiAvgGain] using h2)]
                    exact hg)
            have hq0 : 0 ≤ a / b := div_nonneg ha0 hb0
            have h1q : (1 : ℚ) ≤ 1 + a / b := by linarith
            have h1q0 : (1 : ℚ) + a / b ≠ 0 := by linarith
            have hdiv_le : 100 / (1 + a / b) ≤ 100 := div_le_self (by norm_num) h1q
            have hdiv_nonneg : 0 ≤ 100 / (1 + a / b) := div_nonneg (by norm_num) (by linarith)
            simp only [vDiv, vAdd, vSub, hbd.2, if_neg, if_false]
            rw [if_neg h1q0]
            refine ⟨?_, ?_⟩ <;> simp <;> linarith
  · intro s win t ht hg hd
    rw [nth_rsi_eq s win t ht, hg, hd]
    simp [replaceZero, vDiv, vAdd, vSub]
  · norm_num [rsi, rsiAvgGain, rsiAvgLoss, rsiUp, rsiDown, replaceZero, diffV,
      rollingMean, windowVals, listMean, vDiv, vAdd, vSub, List.range_succ,
      List.filterMap_cons, List.cons_ne_nil, Option.some_ne_none]

/-- Claim C2 evaluation: on the strictly increasing series `[1,2,3]` the
bar-2 trailing average gain is 1 and the trailing average loss is 0, yet
`rsi` returns 50 everywhere instead of 100: `replace(0, nan)` turns the
zero average loss into NaN, so `100 - 100/(1+rs)` is NaN and
`fillna(50.0)` stamps the neutral default over the all-gain case. -/
theorem claim2_rsi_zero_loss_yields_50_not_100 :
    nthV (rsiAvgGain [1, 2, 3] 14) 2 = some 1
    ∧ nthV (rsiAvgLoss [1, 2, 3] 14) 2 = some 0
    ∧ rsi [1, 2, 3] 14 = [50, 50, 50] := by
  refine ⟨?_, ?_, ?_⟩ <;>
    norm_num [rsi, rsiAvgGain, rsiAvgLoss, rsiUp, rsiDown, replaceZero, diffV,
      rollingMean, windowVals, listMean, vDiv, vAdd, vSub, nthV, List.range_succ,
      List.filterMap_cons, List.cons_ne_nil, Option.some_ne_none]

/-- Claim C4: on one job key, `submit` writes `running` before the worker
thread is spawned, so the poll that sees only the first write observes
`running`; the worker then performs exactly one further write, which is
terminal (`done` with payload or `error` with message), and every poll
after that write observes that same terminal value — the status never
reverts to `running`. -/
theorem claim4_job_status_lifecycle (load : Except String Frame) :
    pollAfter (jobWrites load) 1 = some JobStatus.running
    ∧ (jobWrites load).length = 2
    ∧ (runJobWrite load).isTerminal = true
    ∧ (∀ k : ℕ, 2 ≤ k → pollAfter (jobWrites load) k = some (runJobWrite load)) := by
  refine ⟨rfl, rfl, ?_, ?_⟩
  · cases load <;> rfl
  · intro k hk
    have htake : (jobWrites load).take k = jobWrites load :=
      List.take_of_length_le (by simp [jobWrites]; omega)
    rw [pollAfter, htake]
    simp [jobWrites]

/-! ### Constant-series computations for the statistics block -/

theorem filterMap_id_replicate_some (k : ℕ) (c : ℚ) :
    (List.replicate k (some c : V)).filterMap id = List.replicate k c := by
  induction k with
  | zero => rfl
  | succ n ih => simp [List.replicate_succ, List.filterMap_cons, ih]

theorem listMean_replicate (k : ℕ) (c : ℚ) (hk : k ≠ 0) :
    listMean (List.replicate k c) = c := by
  have hkq : ((k : ℚ)) ≠ 0 := by exact_mod_cast hk
  simp [listMean, List.sum_replicate, nsmul_eq_mul]
  rw [mul_comm, mul_div_assoc, div_self hkq, mul_one]

theorem rollingMean_replicate (win n : ℕ) (c : ℚ) :
    rollingMean win (List.replicate n (some c))
      = List.replicate n (if win = 0 then (none : V) else some c) := by
  rw [List.eq_replicate_iff]
  refine ⟨by simp, ?_⟩
  intro b hb
  rw [rollingMean] at hb
  rcases List.mem_map.mp hb with ⟨t, htr, hval⟩
  have htn : t < n := by simpa using List.mem_range.mp htr
  have hw : windowVals win (List.replicate n (some c)) t
      = List.replicate (t + 1 - (t + 1 - win)) c := by
    rw [windowVals, List.take_replicate, List.drop_replicate]
    have hmin : min (t + 1) n = t + 1 := by omega
    rw [hmin, filterMap_id_replicate_some]
  by_cases hwin : win = 0
  · subst hwin
    have hk0 : t + 1 - (t + 1 - 0) = 0 := by omega
    rw [hk0] at hw
    rw [← hval, hw]
    simp
  · have hk : t + 1 - (t + 1 - win) ≠ 0 := by omega
    rw [← hval, hw, if_neg hwin, if_neg (by simp [hk]), listMean_replicate _ _ hk]

theorem btPx_replicate_none (n : ℕ) :
    btPx (List.replicate n (none : V)) = List.replicate n 0 := by
  simp [btPx, fillna]

theorem btSig_replicate_none (n short long : ℕ) :
    btSig (List.replicate n (none : V)) short long = List.replicate n 0 := by
  rw [btSig, btPx_replicate_none, List.map_replicate, sma, sma,
    rollingMean_replicate, rollingMean_replicate, List.zipWith_replicate]
  have : ∀ a b : V, (a = none ∨ a = some 0) → (b = none ∨ b = some 0) →
      (if vGt a b then (1 : ℚ) else 0) = 0 := by
    rintro a b (rfl | rfl) (rfl | rfl) <;> simp [vGt]
  rw [this _ _ (by by_cases h : short = 0 <;> simp [h])
        (by by_cases h : long = 0 <;> simp [h])]
  simp

theorem pctChange_replicate_zero (n : ℕ) :
    pctChange (List.replicate n (0 : ℚ)) = List.replicate n (none : V) := by
  cases n with
  | zero => rfl
  | succ m =>
      rw [List.replicate_succ]
      rw [show pctChange (0 :: List.replicate m (0 : ℚ))
          = none :: List.zipWith (fun prev cur =>
              vSub (vDiv (some cur) (some prev)) (some 1))
            (0 :: List.replicate m (0 : ℚ)) (List.replicate m (0 : ℚ)) from rfl]
      rw [← List.replicate_succ, List.zipWith_replicate]
      have : vSub (vDiv (some (0 : ℚ)) (some (0 : ℚ))) (some 1) = none := by
        simp [vDiv, vSub]
      rw [this]
      simp [List.replicate_succ]

theorem btRet_replicate_none (n : ℕ) :
    btRet (List.replicate n (none : V)) = List.replicate n 0 := by
  rw [btRet, btPx_replicate_none, pctChange_replicate_zero]
  simp [fillna]

theorem shift1_replicate_zero (n : ℕ) :
    shift1 (List.replicate n (0 : ℚ)) = List.replicate n 0 := by
  cases n with
  | zero => rfl
  | succ m =>
      rw [List.replicate_succ, shift1_cons, ← List.replicate_succ,
        List.dropLast_replicate]
      simp [List.replicate_succ]

theorem btTog_replicate_none (n short long : ℕ) :
    btTog (List.replicate n (none : V)) short long = List.replicate n 0 := by
  rw [btTog, btShift, btSig_replicate_none, shift1_replicate_zero,
    List.zipWith_replicate]
  simp

theorem btStrat_replicate_none (n short long : ℕ) (fee : ℚ) :
    btStrat (List.replicate n (none : V)) short long fee = List.replicate n 0 := by
  rw [btStrat, btCost, btTog_replicate_none, btRet_replicate_none,
    btSig_replicate_none, List.map_replicate, List.zipWith_replicate,
    List.zipWith_replicate]
  simp

theorem cumprod_replicate_one (n : ℕ) :
    cumprod (List.replicate n (1 : ℚ)) = List.replicate n 1 := by
  induction n with
  | zero => rfl
  | succ m ih =>
      rw [List.replicate_succ, cumprod, ih, List.map_replicate]
      simp [List.replicate_succ]

theorem cummax_replicate_one (n : ℕ) :
    cummax (List.replicate n (1 : ℚ)) = List.replicate n 1 := by
  induction n with
  | zero => rfl
  | succ m ih =>
      rw [List.replicate_succ, cummax, ih, List.map_replicate]
      simp [List.replicate_succ]

theorem eqSt_replicate_none (n short long : ℕ) (fee : ℚ) :
    cumprod ((btStrat (List.replicate n (none : V)) short long fee).map (fun r => 1 + r))
      = List.replicate n 1 := by
  rw [btStrat_replicate_none, List.map_replicate]
  norm_num [cumprod_replicate_one]

theorem getLast?_replicate_one (n : ℕ) (hn : 1 ≤ n) :
    (List.replicate n (1 : ℚ)).getLast? = some 1 := by
  rw [List.getLast?_eq_getElem?, List.getElem?_replicate]
  rw [if_pos (by simp; omega)]

theorem statsRets_replicate_one (n : ℕ) :
    statsRets (List.replicate n (1 : ℚ)) = List.replicate n 0 := by
  cases n with
  | zero => rfl
  | succ m =>
      rw [statsRets, List.replicate_succ]
      rw [show pctChange (1 :: List.replicate m (1 : ℚ))
          = none :: List.zipWith (fun prev cur =>
              vSub (vDiv (some cur) (some prev)) (some 1))
            (1 :: List.replicate m (1 : ℚ)) (List.replicate m (1 : ℚ)) from rfl]
      rw [← List.replicate_succ, List.zipWith_replicate]
      have : vSub (vDiv (some (1 : ℚ)) (some (1 : ℚ))) (some 1) = some 0 := by
        norm_num [vDiv, vSub]
      rw [this]
      simp [fillna, List.replicate_succ]

theorem sampleVar_replicate_zero (k : ℕ) :
    sampleVar (List.replicate k (0 : ℚ)) = 0 := by
  have hm : listMean (List.replicate k (0 : ℚ)) = 0 := by
    cases k with
    | zero => simp [listMean]
    | succ m => exact listMean_replicate _ _ (by omega)
  simp [sampleVar, hm, List.map_replicate, List.sum_replicate]

theorem foldl_min_replicate_zero (k : ℕ) :
    List.foldl min (0 : ℚ) (List.replicate k (0 : ℚ)) = 0 := by
  induction k with
  | zero => rfl
  | succ m ih => simpa [List.replicate_succ] using ih

theorem statsVol_replicate_one (ops : NumOps) (n : ℕ) :
    (statsVol ops (List.replicate n (1 : ℚ))).getD 0 = 0 := by
  rw [statsVol, statsRets_replicate_one]
  by_cases hn : n ≤ 1
  · rw [sampleStd, if_pos (by simpa using hn)]
    rfl
  · rw [sampleStd, if_neg (by simpa using hn), sampleVar_replicate_zero, ops.sqrt_zero]
    simp

theorem statsVol_replicate_one_cell (ops : NumOps) (n : ℕ) :
    statsVol ops (List.replicate n (1 : ℚ)) = none
    ∨ statsVol ops (List.replicate n (1 : ℚ)) = some 0 := by
  rw [statsVol, statsRets_replicate_one]
  by_cases hn : n ≤ 1
  · left
    rw [sampleStd, if_pos (by simpa using hn)]
    rfl
  · right
    rw [sampleStd, if_neg (by simpa using hn), sampleVar_replicate_zero, ops.sqrt_zero]
    simp

theorem statsSharpe_vol_degenerate (ops : NumOps) (eq : List ℚ)
    (h : statsVol ops eq = none ∨ statsVol ops eq = some 0) :
    statsSharpe ops eq = none := by
  rcases h with h | h <;> rw [statsSharpe, h] <;> simp [vDiv]

theorem statsDd_replicate_one (n : ℕ) (hn : 1 ≤ n) :
    statsDd (List.replicate n (1 : ℚ)) = some 0 := by
  rw [statsDd, cummax_replicate_one, List.zipWith_replicate]
  have : vSub (vDiv (some (1 : ℚ)) (some (1 : ℚ))) (some 1) = some 0 := by
    norm_num [vDiv, vSub]
  rw [this]
  have hmin : min n n = n := by omega
  rw [hmin, minSkipna, filterMap_id_replicate_some]
  cases n with
  | zero => omega
  | succ m =>
      rw [List.replicate_succ]
      simp [foldl_min_replicate_zero]

theorem statsCagr_replicate_one (ops : NumOps) (n : ℕ) (lastVal : ℚ)
    (hl : lastVal = 1) :
    statsCagr ops (List.replicate n (1 : ℚ)) lastVal = some 0 := by
  rw [statsCagr, hl, ops.pow_one]
  simp

/-- `_stats` on the constant equity curve 1.0 yields all-zero statistics. -/
theorem statsOf_replicate_one (ops : NumOps) (n : ℕ) (hn : 1 ≤ n) :
    statsOf ops (List.replicate n (1 : ℚ))
      = some { cagr := 0, vol := 0, maxdd := 0, sharpe := 0 } := by
  rw [statsOf, getLast?_replicate_one n hn]
  show some (Stats.mk ((statsCagr ops (List.replicate n (1 : ℚ)) 1).getD 0)
      ((statsVol ops (List.replicate n (1 : ℚ))).getD 0)
      ((statsDd (List.replicate n (1 : ℚ))).getD 0)
      ((statsSharpe ops (List.replicate n (1 : ℚ))).getD 0))
    = some (Stats.mk 0 0 0 0)
  rw [statsCagr_replicate_one ops n 1 rfl,
    statsSharpe_vol_degenerate ops _ (statsVol_replicate_one_cell ops n),
    statsDd_replicate_one n hn]
  simp [statsVol_replicate_one]

/-- Claim C7: `_stats` returns a value (with plain finite rational
fields) on every non-empty equity curve, the constant-1.0 curve yields
CAGR=0, Vol=0, MaxDD=0, Sharpe=0, and a reported volatility of 0 always
comes with a reported Sharpe of 0. -/
theorem claim7_stats_never_nonfinite (ops : NumOps) :
    (∀ eq : List ℚ, eq ≠ [] → (statsOf ops eq).isSome = true)
    ∧ (∀ n : ℕ, 1 ≤ n → statsOf ops (List.replicate n 1)
        = some { cagr := 0, vol := 0, maxdd := 0, sharpe := 0 })
    ∧ (∀ (eq : List ℚ) (s : Stats), statsOf ops eq = some s → s.vol = 0 → s.sharpe = 0) := by
  refine ⟨?_, fun n hn => statsOf_replicate_one ops n hn, ?_⟩
  · intro eq hne
    obtain ⟨x, hx⟩ := Option.isSome_iff_exists.mp (List.getLast?_isSome.mpr hne)
    rw [statsOf, hx]
    rfl
  · intro eq s hs hvol
    cases heq : eq.getLast? with
    | none =>
        rw [statsOf, heq] at hs
        exact absurd hs (by simp)
    | some lastVal =>
        rw [statsOf, heq] at hs
        have hrec := Option.some.inj hs
        subst hrec
        simp only at hvol ⊢
        have hsh : statsSharpe ops eq = none := by
          apply statsSharpe_vol_degenerate
          cases hvv : statsVol ops eq with
          | none => exact Or.inl rfl
          | some v =>
              right
              rw [hvv] at hvol
              simp at hvol
              rw [hvol]
        simp [hsh]

/-- Claim C3 counterexample: on an empty price series the engine does not
return neutral statistics — `_stats` hits `eq.iloc[-1]` on an empty
series and raises `IndexError` (modelled as `none`). -/
theorem claim3_counterexample_empty_series :
    backtest_sma_cross numOpsDemo [] 10 20 1 = none := rfl

/-- Claim C3 (amended): on a non-empty all-NaN close series every close is
filled to 0, both equity curves are constant 1.0, and both statistics
blocks come back as the neutral default 0.0 everywhere; an empty series
instead raises. -/
theorem claim3_allnan_series_neutral_stats (ops : NumOps) (n short long : ℕ)
    (fee : ℚ) (hn : 1 ≤ n) :
    backtest_sma_cross ops (List.replicate n none) short long fee
      = some { core := backtestCore (List.replicate n none) short long fee
               statsBh := { cagr := 0, vol := 0, maxdd := 0, sharpe := 0 }
               statsSt := { cagr := 0, vol := 0, maxdd := 0, sharpe := 0 } } := by
  have hbh : statsOf ops (backtestCore (List.replicate n (none : V)) short long fee).eqBh
      = some (Stats.mk 0 0 0 0) := by
    rw [backtestCore_eqBh, btRet_replicate_none, List.map_replicate]
    have h10 : (1 : ℚ) + 0 = 1 := by norm_num
    rw [h10, cumprod_replicate_one, statsOf_replicate_one ops n hn]
  have hst : statsOf ops (backtestCore (List.replicate n (none : V)) short long fee).eqSt
      = some (Stats.mk 0 0 0 0) := by
    rw [backtestCore_eqSt, eqSt_replicate_none n short long fee,
      statsOf_replicate_one ops n hn]
  rw [backtest_sma_cross, hbh, hst]

/-! ### Fee monotonicity machinery -/

theorem zipWith_sub_map (as bs : List ℚ) (h : ℚ → ℚ) :
    List.zipWith (fun a b => a - b) as (bs.map h)
      = List.zipWith (fun a b => a - h b) as bs := by
  induction as generalizing bs with
  | nil => simp
  | cons a as ih =>
      cases bs with
      | nil => simp
      | cons b bs => simp [ih]

theorem map_one_add_zipWith (k : ℚ → ℚ → ℚ) (as bs : List ℚ) :
    (List.zipWith k as bs).map (fun r => 1 + r)
      = List.zipWith (fun a b => 1 + k a b) as bs := by
  induction as generalizing bs with
  | nil => simp
  | cons a as ih =>
      cases bs with
      | nil => simp
      | cons b bs => simp [ih]

theorem zipWith_prod_pos (as bs : List ℚ) (c : ℚ)
    (h : ∀ a b : ℚ, (a, b) ∈ as.zip bs → 0 < 1 + (a - b * c)) :
    0 < (List.zipWith (fun a g => 1 + (a - g * c)) as bs).prod := by
  induction as generalizing bs with
  | nil => simp
  | cons a as ih =>
      cases bs with
      | nil => simp
      | cons b bs =>
          simp only [List.zipWith_cons_cons, List.prod_cons]
          have hhead : 0 < 1 + (a - b * c) := h a b (by simp)
          have htail : 0 < (List.zipWith (fun a g => 1 + (a - g * c)) as bs).prod :=
            ih bs (fun x y hxy => h x y (by simp [hxy]))
          exact mul_pos hhead htail

theorem zipWith_prod_le (as bs : List ℚ) (c1 c2 : ℚ) (hc : c1 ≤ c2)
    (hb : ∀ a b : ℚ, (a, b) ∈ as.zip bs → 0 ≤ b)
    (hpos : ∀ a b : ℚ, (a, b) ∈ as.zip bs → 0 < 1 + (a - b * c2)) :
    (List.zipWith (fun a g => 1 + (a - g * c2)) as bs).prod
      ≤ (List.zipWith (fun a g => 1 + (a - g * c1)) as bs).prod := by
  induction as generalizing bs with
  | nil => simp
  | cons a as ih =>
      cases bs with
      | nil => simp
      | cons b bs =>
          simp only [List.zipWith_cons_cons, List.prod_cons]
          have hb0 : 0 ≤ b := hb a b (by simp)
          have hhead2 : 0 < 1 + (a - b * c2) := hpos a b (by simp)
          have hmul : b * c1 ≤ b * c2 := mul_le_mul_of_nonneg_left hc hb0
          have hhead : 1 + (a - b * c2) ≤ 1 + (a - b * c1) := by linarith
          have htail2pos : 0 < (List.zipWith (fun a g => 1 + (a - g * c2)) as bs).prod :=
            zipWith_prod_pos as bs c2 (fun x y hxy => hpos x y (by simp [hxy]))
          have htail : (List.zipWith (fun a g => 1 + (a - g * c2)) as bs).prod
              ≤ (List.zipWith (fun a g => 1 + (a - g * c1)) as bs).prod :=
            ih bs (fun x y hxy => hb x y (by simp [hxy]))
              (fun x y hxy => hpos x y (by simp [hxy]))
          exact mul_le_mul hhead htail (le_of_lt htail2pos) (by linarith)

theorem zipWith_prod_lt (as bs : List ℚ) (c1 c2 : ℚ) (hc : c1 < c2)
    (hb : ∀ a b : ℚ, (a, b) ∈ as.zip bs → 0 ≤ b)
    (hpos : ∀ a b : ℚ, (a, b) ∈ as.zip bs → 0 < 1 + (a - b * c2))
    (hex : ∃ p ∈ as.zip bs, 0 < p.2) :
    (List.zipWith (fun a g => 1 + (a - g * c2)) as bs).prod
      < (List.zipWith (fun a g => 1 + (a - g * c1)) as bs).prod := by
  induction as generalizing bs with
  | nil =>
      rcases hex with ⟨p, hp, _⟩
      simp at hp
  | cons a as ih =>
      cases bs with
      | nil =>
          rcases hex with ⟨p, hp, _⟩
          simp at hp
      | cons b bs =>
          simp only [List.zipWith_cons_cons, List.prod_cons]
          have hb0 : 0 ≤ b := hb a b (by simp)
          have hhead2 : 0 < 1 + (a - b * c2) := hpos a b (by simp)
          by_cases hbpos : 0 < b
          · have hmul : b * c1 < b * c2 := by
              exact mul_lt_mul_of_pos_left hc hbpos
            have hhead : 1 + (a - b * c2) < 1 + (a - b * c1) := by linarith
            have htail2pos : 0 < (List.zipWith (fun a g => 1 + (a - g * c2)) as bs).prod :=
              zipWith_prod_pos as bs c2 (fun x y hxy => hpos x y (by simp [hxy]))
            have htailLe : (List.zipWith (fun a g => 1 + (a - g * c2)) as bs).prod
                ≤ (List.zipWith (fun a g => 1 + (a - g * c1)) as bs).prod :=
              zipWith_prod_le as bs c1 c2 (le_of_lt hc)
                (fun x y hxy => hb x y (by simp [hxy]))
                (fun x y hxy => hpos x y (by simp [hxy]))
            calc (1 + (a - b * c2)) * (List.zipWith (fun a g => 1 + (a - g * c2)) as bs).prod
                < (1 + (a - b * c1)) * (List.zipWith (fun a g => 1 + (a - g * c2)) as bs).prod :=
                  mul_lt_mul_of_pos_right hhead htail2pos
              _ ≤ (1 + (a - b * c1)) * (List.zipWith (fun a g => 1 + (a - g * c1)) as bs).prod :=
                  mul_le_mul_of_nonneg_left htailLe (by linarith)
          · have hbz : b = 0 := le_antisymm (not_lt.mp hbpos) hb0
            have hex2 : ∃ p ∈ as.zip bs, 0 < p.2 := by
              rcases hex with ⟨p, hp, hpp⟩
              rcases List.mem_cons.mp (by simpa using hp) with hp1 | hp2
              · exfalso
                rw [hp1] at hpp
                simp at hpp
                exact absurd hpp hbpos
              · exact ⟨p, hp2, hpp⟩
            have htail := ih bs (fun x y hxy => hb x y (by simp [hxy]))
              (fun x y hxy => hpos x y (by simp [hxy])) hex2
            have hheads : (1 : ℚ) + (a - b * c2) = 1 + (a - b * c1) := by
              rw [hbz]
              ring
            rw [← hheads]
            exact mul_lt_mul_of_pos_left htail hhead2

theorem btStrat_eq_zipWith (closes : List V) (short long : ℕ) (fee : ℚ) :
    btStrat closes short long fee
      = List.zipWith (fun a g => a - g * (fee / 10000))
          (List.zipWith (fun a b => a * b) (btRet closes) (btSig closes short long))
          (btTog closes short long) := by
  rw [btStrat, btCost]
  exact zipWith_sub_map _ _ _

theorem btTog_mem_nonneg (closes : List V) (short long : ℕ) :
    ∀ x ∈ btTog closes short long, 0 ≤ x := by
  intro x hx
  rcases List.mem_iff_getElem.mp hx with ⟨i, hi, hval⟩
  have hic : i < closes.length := by simpa using hi
  have hnth : nth (btTog closes short long) i = x := by
    rw [nth_eq_getElem _ _ hi, hval]
  rw [nth_btTog closes short long i hic] at hnth
  rw [← hnth]
  by_cases h : nth (btSig closes short long) i = nth (btShift closes short long) i <;>
    simp [h]

/-- The signal at bar 0 is always 0: both rolling means see exactly the
first price (or an empty window), and the comparison is strict. -/
theorem btSig_head_zero (closes : List V) (short long : ℕ) (h0 : 0 < closes.length) :
    nth (btSig closes short long) 0 = 0 := by
  rw [nth_btSig closes short long 0 h0]
  have hpx : 0 < (btPx closes).length := by simpa using h0
  have hcell : ∀ win : ℕ, nthV (sma ((btPx closes).map some) win) 0
      = if win = 0 then none else some (listMean ((btPx closes).take 1)) := by
    intro win
    have hb : 0 < (sma ((btPx closes).map some) win).length := by simpa using h0
    by_cases hw : win = 0
    · subst hw
      rw [nthV_eq_getElem _ _ hb, if_pos rfl]
      have hb2 : 0 < (rollingMean 0 ((btPx closes).map some)).length := hb
      show (rollingMean 0 ((btPx closes).map some))[0] = none
      rw [getElem_rollingMean 0 ((btPx closes).map some) 0 hb2]
      have hcond : windowVals 0 ((btPx closes).map some) 0 = [] := by
        rw [windowVals]
        have hdrop : ((((btPx closes).map some).take (0 + 1)).drop (0 + 1 - 0)) = [] := by
          apply List.drop_eq_nil_of_le
          simp
        rw [hdrop]
        rfl
      rw [if_pos hcond]
    · rw [nthV_eq_getElem _ _ hb,
        getElem_sma_map_some (btPx closes) win 0 (by omega) hpx hb, if_neg hw]
      have hz : 0 + 1 - win = 0 := by omega
      rw [hz]
      simp
  rw [hcell short, hcell long]
  by_cases hs : short = 0 <;> by_cases hl : long = 0 <;> simp [hs, hl, vGt]

/-- Claim C6 counterexample: on the 6-bar close series
`[2, 1, 3, 1/100, 1/50, 1/20000]` with windows 2/3 there are three
toggles, yet raising the fee from 40 bps to 50 bps RAISES the final
strategy equity (two per-bar growth factors are negative, and making both
more negative increases their product), refuting the claim that a larger
`feeBasisPoints` always lowers final equity when toggles occur. -/
theorem claim6_counterexample_fee_increase_raises_final_equity :
    (backtestCore [some 2, some 1, some 3, some (1/100), some (1/50), some (1/20000)]
        2 3 40).toggles = [0, 0, 0, 1, 1, 1]
    ∧ (backtestCore [some 2, some 1, some 3, some (1/100), some (1/50), some (1/20000)]
        2 3 40).eqSt.getLastD 1
      < (backtestCore [some 2, some 1, some 3, some (1/100), some (1/50), some (1/20000)]
        2 3 50).eqSt.getLastD 1 := by
  constructor
  · norm_num [backtestCore, btTog, btShift, btSig, btPx, fillna, sma, rollingMean,
      windowVals, listMean, shift1, vGt, List.range_succ, List.filterMap_cons,
      List.cons_ne_nil, Option.some_ne_none]
  · rw [backtestCore_eqSt, backtestCore_eqSt, getLastD_cumprod, getLastD_cumprod]
    norm_num [btStrat, btCost, btTog, btShift, btSig, btRet, btPx, fillna, pctChange,
      sma, rollingMean, windowVals, listMean, shift1, vGt, vSub, vDiv,
      List.range_succ, List.filterMap_cons, List.cons_ne_nil, Option.some_ne_none]

/-- Claim C6 (amended): (a) if the signal never switches after the first
bar then the strategy equity curve is identical to the zero-fee run (the
bar-0 signal is always 0, so there is no toggle at all and every toggle
cost vanishes); (b) when at least one toggle fires and every per-bar
strategy growth factor at the higher fee stays positive, increasing
`feeBasisPoints` strictly decreases the final strategy equity.  (Without
the positivity proviso the counterexample shows the monotonicity is
false: negative growth factors can pair up and raise the product.) -/
theorem claim6_zero_switch_and_fee_monotonicity
    (closes : List V) (short long : ℕ) (fee fee1 fee2 : ℚ) :
    ((∀ t : ℕ, 1 ≤ t → t < closes.length →
        nth (btSig closes short long) t = nth (btSig closes short long) (t - 1)) →
      (backtestCore closes short long fee).eqSt
        = (backtestCore closes short long 0).eqSt)
    ∧ (fee1 < fee2 →
        (∃ t : ℕ, t < closes.length ∧ nth (btTog closes short long) t = 1) →
        (∀ t : ℕ, t < closes.length →
          0 < 1 + nth (btStrat closes short long fee2) t) →
        (backtestCore closes short long fee2).eqSt.getLastD 1
          < (backtestCore closes short long fee1).eqSt.getLastD 1) := by
  constructor
  · intro hconst
    have htog : ∀ t : ℕ, t < closes.length → nth (btTog closes short long) t = 0 := by
      intro t ht
      rw [nth_btTog closes short long t ht, nth_btShift closes short long t ht]
      cases t with
      | zero => simp [btSig_head_zero closes short long (by omega)]
      | succ s =>
          have hcs := hconst (s + 1) (by omega) ht
          simp [hcs]
    have hcost : btCost closes short long fee = btCost closes short long 0 := by
      apply List.ext_getElem (by simp)
      intro i h1 h2
      have hic : i < closes.length := by simpa using h1
      have e1 : nth (btCost closes short long fee) i = 0 := by
        rw [nth_btCost closes short long i fee hic, htog i hic]
        ring
      have e2 : nth (btCost closes short long 0) i = 0 := by
        rw [nth_btCost closes short long i 0 hic, htog i hic]
        ring
      rw [← nth_eq_getElem _ _ h1, ← nth_eq_getElem _ _ h2, e1, e2]
    simp only [backtestCore_eqSt, btStrat, hcost]
  · intro hflt hex hpos
    rw [backtestCore_eqSt, backtestCore_eqSt, getLastD_cumprod, getLastD_cumprod,
      btStrat_eq_zipWith, btStrat_eq_zipWith, map_one_add_zipWith, map_one_add_zipWith]
    have hlenb : (List.zipWith (fun a b => a * b) (btRet closes)
        (btSig closes short long)).length = closes.length := by
      simp
    have hlent : (btTog closes short long).length = closes.length := by simp
    have hc : fee1 / 10000 < fee2 / 10000 := by linarith
    have hstrat_nth : ∀ i : ℕ, i < closes.length →
        ∀ h1 : i < (List.zipWith (fun a b => a * b) (btRet closes)
            (btSig closes short long)).length,
        ∀ h2 : i < (btTog closes short long).length,
        nth (btStrat closes short long fee2) i
          = (List.zipWith (fun a b => a * b) (btRet closes)
              (btSig closes short long))[i]
            - (btTog closes short long)[i] * (fee2 / 10000) := by
      intro i hic h1 h2
      rw [show btStrat closes short long fee2
          = List.zipWith (fun a g => a - g * (fee2 / 10000))
              (List.zipWith (fun a b => a * b) (btRet closes)
                (btSig closes short long))
              (btTog closes short long)
          from btStrat_eq_zipWith closes short long fee2]
      have hilen2 : i < (List.zipWith (fun a g => a - g * (fee2 / 10000))
          (List.zipWith (fun a b => a * b) (btRet closes)
            (btSig closes short long))
          (btTog closes short long)).length := by
        simp only [List.length_zipWith]
        simp
        omega
      rw [nth_eq_getElem _ _ hilen2, List.getElem_zipWith]
    apply zipWith_prod_lt _ _ (fee1 / 10000) (fee2 / 10000) hc
    · intro a b hab
      rcases List.mem_iff_getElem.mp hab with ⟨i, hi, hval⟩
      rw [List.getElem_zip] at hval
      have hbv := congrArg Prod.snd hval
      simp only at hbv
      rw [← hbv]
      exact btTog_mem_nonneg closes short long _ (List.getElem_mem _)
    · intro a b hab
      rcases List.mem_iff_getElem.mp hab with ⟨i, hi, hval⟩
      have hic : i < closes.length := by
        rw [List.length_zip, hlenb, hlent] at hi
        omega
      have h1 : i < (List.zipWith (fun a b => a * b) (btRet closes)
          (btSig closes short long)).length := by omega
      have h2 : i < (btTog closes short long).length := by omega
      rw [List.getElem_zip] at hval
      have hav := congrArg Prod.fst hval
      have hbv := congrArg Prod.snd hval
      simp only at hav hbv
      have hsp := hpos i hic
      rw [hstrat_nth i hic h1 h2] at hsp
      rw [← hav, ← hbv]
      exact hsp
    · rcases hex with ⟨t, htc, htv⟩
      have h1 : t < (List.zipWith (fun a b => a * b) (btRet closes)
          (btSig closes short long)).length := by omega
      have h2 : t < (btTog closes short long).length := by omega
      have hzt : t < ((List.zipWith (fun a b => a * b) (btRet closes)
          (btSig closes short long)).zip (btTog closes short long)).length := by
        rw [List.length_zip]
        omega
      refine ⟨_, List.getElem_mem hzt, ?_⟩
      rw [List.getElem_zip]
      show 0 < (btTog closes short long)[t]
      have : nth (btTog closes short long) t = 1 := htv
      rw [nth_eq_getElem _ _ h2] at this
      rw [this]
      norm_num

/-! ### Concrete witnesses -/

theorem claim1_witness :
    1 < ([some 1, some 2, some 1] : List V).length
    ∧ (nth (backtestCore [some 1, some 2, some 1] 1 2 7).stratRet 1
        = nth (backtestCore [some 1, some 2, some 1] 1 2 7).ret 1
            * nth (backtestCore [some 1, some 2, some 1] 1 2 7).signal 1
          - (if nth (backtestCore [some 1, some 2, some 1] 1 2 7).signal 1
                = (if (1 : ℕ) = 0 then 0
                   else nth (backtestCore [some 1, some 2, some 1] 1 2 7).signal (1 - 1))
             then 0 else 7 / 10000)
      ∧ nth (backtestCore [some 1, some 2, some 1] 1 2 7).eqSt 1
        = ((((backtestCore [some 1, some 2, some 1] 1 2 7).stratRet.take (1 + 1)).map
              (fun r => 1 + r)).prod)) :=
  ⟨by norm_num,
   claim1_same_bar_signal_and_toggle_cost [some 1, some 2, some 1] 1 2 7 1 (by norm_num)⟩

theorem claim3_witness :
    (1 : ℕ) ≤ 2
    ∧ backtest_sma_cross numOpsDemo (List.replicate 2 none) 10 20 1
      = some { core := backtestCore (List.replicate 2 none) 10 20 1
               statsBh := { cagr := 0, vol := 0, maxdd := 0, sharpe := 0 }
               statsSt := { cagr := 0, vol := 0, maxdd := 0, sharpe := 0 } } :=
  ⟨by norm_num, claim3_allnan_series_neutral_stats numOpsDemo 2 10 20 1 (by norm_num)⟩

theorem claim4_witness :
    pollAfter (jobWrites (Except.error "boom")) 1 = some JobStatus.running
    ∧ (2 : ℕ) ≤ 3
    ∧ pollAfter (jobWrites (Except.error "boom")) 3
      = some (runJobWrite (Except.error "boom")) :=
  ⟨(claim4_job_status_lifecycle (Except.error "boom")).1,
   by norm_num,
   (claim4_job_status_lifecycle (Except.error "boom")).2.2.2 3 (by norm_num)⟩

theorem claim5_witness :
    (1 < ([10, 10, 10, 10, 10] : List ℚ).length
      ∧ 0 ≤ nth (rsi [10, 10, 10, 10, 10] 3) 1
      ∧ nth (rsi [10, 10, 10, 10, 10] 3) 1 ≤ 100)
    ∧ nth (rsi [10, 10, 10, 10, 10] 3) 1 = 50 :=
  ⟨⟨by norm_num,
    (claim5_rsi_bounded_and_neutral_default.1 [10, 10, 10, 10, 10] 3 1 (by norm_num)).1,
    (claim5_rsi_bounded_and_neutral_default.1 [10, 10, 10, 10, 10] 3 1 (by norm_num)).2⟩,
   claim5_rsi_bounded_and_neutral_default.2.1 [10, 10, 10, 10, 10] 3 1 (by norm_num)
     (by norm_num [rsiAvgGain, rsiUp, diffV, rollingMean, windowVals, listMean, nthV,
        List.range_succ, List.filterMap_cons, List.cons_ne_nil, Option.some_ne_none])
     (by norm_num [rsiAvgLoss, rsiDown, diffV, rollingMean, windowVals, listMean, nthV,
        List.range_succ, List.filterMap_cons, List.cons_ne_nil, Option.some_ne_none])⟩

theorem claim6_witness :
    (backtestCore [some 1, some 1, some 1] 1 2 7).eqSt
      = (backtestCore [some 1, some 1, some 1] 1 2 0).eqSt
    ∧ (backtestCore [some 1, some 2, some 1] 1 2 1).eqSt.getLastD 1
      < (backtestCore [some 1, some 2, some 1] 1 2 0).eqSt.getLastD 1 :=
  ⟨(claim6_zero_switch_and_fee_monotonicity [some 1, some 1, some 1] 1 2 7 0 1).1
      (by
        intro t h1 h2
        have h3 : t < 3 := by simpa using h2
        interval_cases t <;>
          norm_num [btSig, btPx, fillna, sma, rollingMean, windowVals, listMean, vGt,
            nth, List.range_succ, List.filterMap_cons, List.cons_ne_nil,
            Option.some_ne_none]),
   (claim6_zero_switch_and_fee_monotonicity [some 1, some 2, some 1] 1 2 7 0 1).2
      (by norm_num)
      (⟨1, by norm_num,
        by norm_num [btTog, btShift, btSig, btPx, fillna, sma, rollingMean, windowVals,
          listMean, shift1, vGt, nth, List.range_succ, List.filterMap_cons,
          List.cons_ne_nil, Option.some_ne_none]⟩)
      (by
        intro t ht
        have h3 : t < 3 := by simpa using ht
        interval_cases t <;>
          norm_num [btStrat, btCost, btTog, btShift, btSig, btRet, btPx, fillna,
            pctChange, sma, rollingMean, windowVals, listMean, shift1, vGt, vSub, vDiv,
            nth, List.range_succ, List.filterMap_cons, List.cons_ne_nil,
            Option.some_ne_none])⟩

theorem claim7_witness :
    (([2, 3] : List ℚ) ≠ [] ∧ (statsOf numOpsDemo [2, 3]).isSome = true)
    ∧ ((1 : ℕ) ≤ 2 ∧ statsOf numOpsDemo (List.replicate 2 1)
        = some { cagr := 0, vol := 0, maxdd := 0, sharpe := 0 })
    ∧ (Stats.mk 0 0 0 0).sharpe = 0 :=
  ⟨⟨by simp, (claim7_stats_never_nonfinite numOpsDemo).1 [2, 3] (by simp)⟩,
   ⟨by norm_num, (claim7_stats_never_nonfinite numOpsDemo).2.1 2 (by norm_num)⟩,
   (claim7_stats_never_nonfinite numOpsDemo).2.2 (List.replicate 2 1) (Stats.mk 0 0 0 0)
     ((claim7_stats_never_nonfinite numOpsDemo).2.1 2 (by norm_num)) rfl⟩

theorem claim8_witness :
    ((1 : ℕ) ≤ 3 ∧ (sma [some 1, some 2] 3).length = ([some 1, some 2] : List V).length)
    ∧ (1 < ([1, 2] : List ℚ).length
      ∧ nthV (sma (([1, 2] : List ℚ).map some) 3) 1
        = some (listMean ((([1, 2] : List ℚ).take (1 + 1)).drop (1 + 1 - 3)))) :=
  ⟨⟨by norm_num, claim8_indicator_totality_and_length.1 [some 1, some 2] 3 (by norm_num)⟩,
   ⟨by norm_num,
    claim8_indicator_totality_and_length.2.1 [1, 2] 3 1 (by norm_num) (by norm_num)⟩⟩

theorem claim9_witness :
    (vwap_cross { close := ([1, 2] : List ℚ), volume := none }).equity.head? = some 1
    ∧ nth (vwapStrat { close := ([1, 2] : List ℚ), volume := none }) 1
      = nth (vwapReturns { close := ([1, 2] : List ℚ), volume := none }) 1
        * (if (1 : ℕ) = 0 then 0
           else nth (vwapSignal { close := ([1, 2] : List ℚ), volume := none }) (1 - 1)) :=
  ⟨claim9_vwap_shifted_signal_no_fee.1 { close := [1, 2], volume := none } (by simp) rfl,
   claim9_vwap_shifted_signal_no_fee.2.1 { close := [1, 2], volume := none } 1 rfl
     (by norm_num)⟩

theorem claim10_witness :
    ((1 : ℕ) ≤ 2 ∧ (2 : ℕ) ≤ 3 ∧ (1 : ℕ) < 2 ∧ 1 < ([some 1, some 2, some 1] : List V).length)
    ∧ (nth (backtestCore [some 1, some 2, some 1] 2 3 7).signal 1 = 0
      ∧ nth (backtestCore [some 1, some 2, some 1] 2 3 7).toggles 1 = 0
      ∧ nth (backtestCore [some 1, some 2, some 1] 2 3 7).cost 1 = 0) :=
  ⟨⟨by norm_num, by norm_num, by norm_num, by norm_num⟩,
   claim10_no_signal_before_short_window [some 1, some 2, some 1] 2 3 7 1
     (by norm_num) (by norm_num) (by norm_num) (by norm_num)⟩

end RizzkTerminal
